import Mathlib

/-!
Verification of the schedule-synthesis core of `make_gtfs`
(`make_gtfs/main.py`, with `hashables.py` for the memoization layer).

The embedding models pandas/geopandas frames as Lists of row structures and
IEEE-754 special values (produced by pandas divisions and `np.inf` speed
sentinels) by an explicit value type `FVal`.  Geometry primitives
(buffering, point projection onto a linestring, spatial joins, boundary
intersections) are external collaborators of the code under analysis and are
modelled as abstract function parameters; everything downstream of them is
translated from the source.
-/

namespace MakeGtfs

/-- Model of an IEEE-754 double as used by the pandas pipeline: a finite
rational, NaN, or a signed infinity. -/
inductive FVal where
  | fin : ℚ → FVal
  | nan : FVal
  | inf : FVal
  | ninf : FVal
  deriving DecidableEq

/-- IEEE addition on `FVal` (only the cases pandas `+`/`cumsum` can hit). -/
def FVal.add : FVal → FVal → FVal
  | .nan, _ => .nan
  | _, .nan => .nan
  | .inf, .ninf => .nan
  | .ninf, .inf => .nan
  | .inf, _ => .inf
  | _, .inf => .inf
  | .ninf, _ => .ninf
  | _, .ninf => .ninf
  | .fin a, .fin b => .fin (a + b)

/-- IEEE division of two finite values: `0/0 = NaN`, `x/0 = ±inf` for
`x ≠ 0`, otherwise exact rational division. -/
def FVal.fdivQ (a b : ℚ) : FVal :=
  if b = 0 then (if a = 0 then .nan else if 0 < a then .inf else .ninf)
  else .fin (a / b)

/-- IEEE division of a finite numerator by an `FVal` denominator. -/
def FVal.divFin (a : ℚ) : FVal → FVal
  | .fin b => FVal.fdivQ a b
  | .nan => .nan
  | .inf => .fin 0
  | .ninf => .fin 0

/-- pandas `Series.fillna(0)`: replaces NaN (and only NaN) by 0. -/
def FVal.fillna0 : FVal → FVal
  | .nan => .fin 0
  | v => v

/-- The rational carried by a finite `FVal` (0 for the special values). -/
def FVal.q : FVal → ℚ
  | .fin a => a
  | _ => 0

/-- True exactly on finite values. -/
def FVal.isFin : FVal → Bool
  | .fin _ => true
  | _ => false

/-- pandas `Series.diff().shift(-1).fillna(0)`: entry `i` becomes
`l[i+1] - l[i]`, and the last entry becomes 0. -/
def diffShift : List ℚ → List ℚ
  | [] => []
  | [_] => [0]
  | a :: b :: t => (b - a) :: diffShift (b :: t)

/-- pandas `Series.cumsum().shift(1).fillna(0)` on a NaN-free column:
entry `i` becomes the sum of the entries before `i`. -/
def cumsumExcl (l : List ℚ) : List ℚ :=
  (l.scanl (· + ·) 0).dropLast

/-- pandas `Series.cumsum()` (with its default `skipna=True`) on a column of
floats: NaN entries stay NaN and do not contribute to the running sum. -/
def cumsumSkipNan (acc : FVal) : List FVal → List FVal
  | [] => []
  | .nan :: t => .nan :: cumsumSkipNan acc t
  | v :: t => (acc.add v) :: cumsumSkipNan (acc.add v) t

/-- pandas `Series.shift(1)`: a NaN enters at the front, the last entry
falls off. -/
def shift1 : List FVal → List FVal
  | [] => []
  | l => .nan :: l.dropLast

/-- A row of the merged stop/shape-point frame inside
`build_stop_times_for_trip`: optional stop ID (`None` on shape-point rows),
`shape_dist_traveled`, and the joined zone speed, where `none` models the
`np.inf` "unbounded" sentinel speed of default speed zones. -/
structure SRow where
  sid : Option String
  dist : ℚ
  speed : Option ℚ
  deriving DecidableEq

/-- Comparison used by `sort_values("shape_dist_traveled")`. -/
def rowLe (a b : SRow) : Prop := a.dist ≤ b.dist

instance : DecidableRel rowLe := fun a b => inferInstanceAs (Decidable (a.dist ≤ b.dist))

instance : IsTotal SRow rowLe := ⟨fun a b => le_total a.dist b.dist⟩

instance : IsTrans SRow rowLe := ⟨fun _ _ _ h h' => le_trans h h'⟩

/-- Model of `sort_values("shape_dist_traveled", ignore_index=True)` on the merged
frame. -/
def sortRows (l : List SRow) : List SRow := List.insertionSort rowLe l

/-- Speed column after `x.speed.replace({np.inf: default_speed})`:
the unbounded sentinel becomes the default speed. -/
def mergedSpeeds (default : ℚ) (rows : List SRow) : List ℚ :=
  rows.map (fun r => r.speed.getD default)

/-- The column `weight_to_next = dist_to_next * speed` of the merged frame. -/
def weightsOf (default : ℚ) (rows : List SRow) : List ℚ :=
  List.zipWith (· * ·) (diffShift (rows.map (·.dist))) (mergedSpeeds default rows)

/-- The column `shape_weight_traveled = weight_to_next.cumsum().shift(1).fillna(0)`. -/
def mergedSWT (default : ℚ) (rows : List SRow) : List ℚ :=
  cumsumExcl (weightsOf default rows)

/-- Model of `.loc[lambda x: x.stop_id.notna()]`: keep the stop rows of the merged
frame, carrying stop ID, `shape_dist_traveled` and `shape_weight_traveled`. -/
def retained (default : ℚ) (rows : List SRow) : List (String × ℚ × ℚ) :=
  ((rows.zip (mergedSWT default rows)).filter (fun p => p.1.sid.isSome)).map
    (fun p => (p.1.sid.getD "", p.1.dist, p.2))

/-- Duration between two consecutive retained stops, from their
`shape_dist_traveled` difference `dd` and `shape_weight_traveled` difference
`dw`: `speed_to_next = (dw / dd).fillna(0)` and
`duration_to_next = (dd / speed_to_next).fillna(0)`. -/
def durOf (dd dw : ℚ) : FVal :=
  FVal.fillna0 (FVal.divFin dd (FVal.fillna0 (FVal.fdivQ dw dd)))

/-- The `duration_to_next` column over the retained stop rows. -/
def stopDurations (ret : List (String × ℚ × ℚ)) : List FVal :=
  List.zipWith durOf (diffShift (ret.map (fun t => t.2.1)))
    (diffShift (ret.map (fun t => t.2.2)))

/-- The `arrival_time` column:
`duration_to_next.shift(1).cumsum().fillna(0) + start_time`. -/
def stopArrivals (start : ℚ) (ret : List (String × ℚ × ℚ)) : List FVal :=
  (cumsumSkipNan (.fin 0) (shift1 (stopDurations ret))).map
    (fun v => v.fillna0.add (.fin start))

/-- One output row of `build_stop_times_for_trip`. -/
structure STRow where
  trip_id : String
  stop_id : String
  stop_sequence : ℕ
  arrival_time : FVal
  departure_time : FVal
  shape_dist_traveled : ℚ
  deriving DecidableEq

/-- Assemble output rows; `stop_sequence = range(len(x.index))` and
`departure_time = arrival_time`. -/
def buildRows (tid : String) : ℕ → List ((String × ℚ × ℚ) × FVal) → List STRow
  | _, [] => []
  | i, (t, a) :: rest =>
    ⟨tid, t.1, i, a, a, t.2.1⟩ :: buildRows tid (i + 1) rest

/-- Core of `build_stop_times_for_trip` downstream of the unit conversion:
sort the concatenated stop/shape-point rows by distance, integrate
distance-weighted speeds, keep the stop rows and attach times. -/
def synthCore (tid : String) (default start : ℚ) (rows : List SRow) : List STRow :=
  let s := sortRows rows
  buildRows tid 0 ((retained default s).zip (stopArrivals start (retained default s)))

/-- The factor `k = 1000 / 3600` converting kph to m/s. -/
def kmh : ℚ := 1000 / 3600

/-- A candidate stop (`stops_g_nearby` row): stop ID and point geometry. -/
structure Stop where
  stop_id : String
  pt : ℚ × ℚ
  deriving DecidableEq

/-- A row of the `shape_point_speeds` table consumed by
`build_stop_times_for_trip`. -/
structure SpsRow where
  shape_id : String
  dist : ℚ
  speed : Option ℚ
  deriving DecidableEq

/-- Model of `build_stop_times_for_trip`: `project` models
`linestring.project(row.geometry)` and `zoneMatches` models the spatial join
of a stop point with the speed zones of the trip's route type (one entry per
matching zone polygon, carrying the zone's speed, `none` for `np.inf`).
Speeds are converted from kph to m/s, stop rows are built and sorted by
distance, shape-point-speed rows of the trip's shape are appended, and the
merged frame is integrated by `synthCore`. -/
def tripMergedRows (stops : List Stop) (project : ℚ × ℚ → ℚ)
    (zoneMatches : ℚ × ℚ → List (Option ℚ)) (shape_id : String)
    (spsTable : List SpsRow) : List SRow :=
  sortRows (stops.flatMap
    (fun s => (zoneMatches s.pt).map
      (fun sp => SRow.mk (some s.stop_id) (project s.pt) (sp.map (· * kmh))))) ++
  (spsTable.filter (fun r => r.shape_id == shape_id)).map
    (fun r => SRow.mk none r.dist (r.speed.map (· * kmh)))

def buildStopTimesForTrip (tid : String) (stops : List Stop)
    (project : ℚ × ℚ → ℚ) (zoneMatches : ℚ × ℚ → List (Option ℚ))
    (shape_id : String) (spsTable : List SpsRow)
    (default_speed start : ℚ) : List STRow :=
  synthCore tid (default_speed * kmh) start
    (tripMergedRows stops project zoneMatches shape_id spsTable)

/-! ### List helper lemmas -/

theorem dropLast_cons_ne {α : Type _} (a : α) {l : List α} (h : l ≠ []) :
    (a :: l).dropLast = a :: l.dropLast := by
  cases l with
  | nil => exact absurd rfl h
  | cons x t => rfl

theorem diffShift_length (l : List ℚ) : (diffShift l).length = l.length := by
  induction l with
  | nil => rfl
  | cons a t ih =>
    cases t with
    | nil => rfl
    | cons b s => simpa [diffShift] using ih

theorem diffShift_getElem? (l : List ℚ) (i : ℕ) (a b : ℚ)
    (ha : l[i]? = some a) (hb : l[i + 1]? = some b) :
    (diffShift l)[i]? = some (b - a) := by
  induction l generalizing i with
  | nil => simp at ha
  | cons x t ih =>
    cases t with
    | nil =>
      cases i with
      | zero => simp at hb
      | succ j => simp at hb
    | cons y s =>
      cases i with
      | zero =>
        simp at ha hb
        simp [diffShift, ha, hb]
      | succ j =>
        rw [List.getElem?_cons_succ] at ha hb
        simpa [diffShift] using ih j ha hb

theorem zipWith_getElem? {α β γ : Type _} (f : α → β → γ) (l : List α) (m : List β)
    (i : ℕ) (a : α) (b : β) (ha : l[i]? = some a) (hb : m[i]? = some b) :
    (List.zipWith f l m)[i]? = some (f a b) := by
  induction l generalizing m i with
  | nil => simp at ha
  | cons x t ih =>
    cases m with
    | nil => simp at hb
    | cons y s =>
      cases i with
      | zero =>
        simp at ha hb
        simp [ha, hb]
      | succ j =>
        simp only [List.getElem?_cons_succ] at ha hb
        simpa using ih s j ha hb

theorem chain'_getElem? {α : Type _} {R : α → α → Prop} {l : List α}
    (h : List.Chain' R l) (i : ℕ) (a b : α)
    (ha : l[i]? = some a) (hb : l[i + 1]? = some b) : R a b := by
  induction l generalizing i with
  | nil => simp at ha
  | cons x t ih =>
    cases t with
    | nil =>
      cases i with
      | zero => simp at hb
      | succ j => simp at hb
    | cons y s =>
      cases i with
      | zero =>
        simp at ha hb
        subst ha; subst hb
        exact h.rel_head
      | succ j =>
        rw [List.getElem?_cons_succ] at ha hb
        exact ih h.tail j ha hb

theorem chain'_zip_left {α β : Type _} {R : α → α → Prop} :
    ∀ {l : List α} (m : List β), List.Chain' R l →
      List.Chain' (fun a b => R a.1 b.1) (l.zip m)
  | [], _, _ => by simp
  | [_], m, _ => by cases m <;> simp
  | a :: b :: t, m, h => by
    cases m with
    | nil => simp
    | cons x s =>
      cases s with
      | nil => simp
      | cons y u =>
        refine List.Chain'.cons ?_ (chain'_zip_left (y :: u) h.tail)
        exact h.rel_head

theorem chain'_zip_right {α β : Type _} {S : β → β → Prop} :
    ∀ (l : List α) {m : List β}, List.Chain' S m →
      List.Chain' (fun a b => S a.2 b.2) (l.zip m)
  | [], _, _ => by simp
  | [_], m, _ => by cases m <;> simp
  | a :: b :: t, m, h => by
    cases m with
    | nil => simp
    | cons x s =>
      cases s with
      | nil => simp
      | cons y u =>
        refine List.Chain'.cons ?_ (chain'_zip_right (b :: t) h.tail)
        exact h.rel_head

/-! ### Invariants of the merged frame

A merged row is coupled with its `shape_weight_traveled` value.  Along the
distance-sorted merged frame the cumulative weight is monotone (for positive
speeds) and constant across zero-length spans (unconditionally). -/

/-- Distance/weight coupling that holds without any sign assumption on
speeds: distances are non-decreasing and the cumulative weight is constant
across rows at equal distance. -/
def RelEq (a b : SRow × ℚ) : Prop :=
  a.1.dist ≤ b.1.dist ∧ (a.1.dist = b.1.dist → a.2 = b.2)

/-- Distance/weight coupling for positive speeds: additionally the
cumulative weight is non-decreasing, and strictly increasing across spans of
positive length. -/
def Coupled (a b : SRow × ℚ) : Prop :=
  a.1.dist ≤ b.1.dist ∧ a.2 ≤ b.2 ∧ (a.1.dist = b.1.dist → a.2 = b.2) ∧
    (a.1.dist < b.1.dist → a.2 < b.2)

instance : IsTrans (SRow × ℚ) RelEq := by
  refine ⟨fun a b c hab hbc => ⟨le_trans hab.1 hbc.1, fun h => ?_⟩⟩
  have h1 : a.1.dist = b.1.dist := le_antisymm hab.1 (h ▸ hbc.1)
  exact (hab.2 h1).trans (hbc.2 (h1 ▸ h))

instance : IsTrans (SRow × ℚ) Coupled := by
  refine ⟨fun a b c hab hbc =>
    ⟨le_trans hab.1 hbc.1, le_trans hab.2.1 hbc.2.1, fun h => ?_, fun h => ?_⟩⟩
  · have h1 : a.1.dist = b.1.dist := le_antisymm hab.1 (h ▸ hbc.1)
    exact (hab.2.2.1 h1).trans (hbc.2.2.1 (h1 ▸ h))
  · rcases lt_or_eq_of_le hab.1 with h1 | h1
    · exact lt_of_lt_of_le (hab.2.2.2 h1) hbc.2.1
    · exact lt_of_le_of_lt hab.2.1 (hbc.2.2.2 (h1 ▸ h))

theorem weightsOf_cons (default : ℚ) (a b : SRow) (t : List SRow) :
    weightsOf default (a :: b :: t) =
      (b.dist - a.dist) * a.speed.getD default :: weightsOf default (b :: t) := by
  simp [weightsOf, mergedSpeeds, diffShift]

theorem weightsOf_ne_nil (default : ℚ) (a : SRow) (t : List SRow) :
    weightsOf default (a :: t) ≠ [] := by
  cases t with
  | nil => simp [weightsOf, mergedSpeeds, diffShift]
  | cons b s => simp [weightsOf_cons, weightsOf, mergedSpeeds, diffShift]

theorem scanl_add_ne_nil (acc : ℚ) (l : List ℚ) :
    l.scanl (· + ·) acc ≠ [] := by
  cases l <;> simp [List.scanl]

/-- The zip of the merged frame with its running weight, with a generalized
accumulator, satisfies the unconditional coupling when the frame is sorted
by distance. -/
theorem chainZipEqAux (default : ℚ) :
    ∀ (rows : List SRow) (acc : ℚ), List.Chain' rowLe rows →
      List.Chain' RelEq
        (rows.zip (((weightsOf default rows).scanl (· + ·) acc).dropLast))
  | [], _, _ => by simp
  | [a], acc, _ => by
    simp [weightsOf, mergedSpeeds, diffShift, List.scanl]
  | a :: b :: t, acc, h => by
    rw [weightsOf_cons, List.scanl_cons, List.singleton_append,
      dropLast_cons_ne _ (scanl_add_ne_nil _ _), List.zip_cons_cons]
    have hd : a.dist ≤ b.dist := h.rel_head
    have ih := chainZipEqAux default (b :: t)
      (acc + (b.dist - a.dist) * a.speed.getD default) h.tail
    refine List.chain'_cons'.mpr ⟨?_, ih⟩
    intro y hy
    have hy' := List.mem_of_mem_head? hy
    -- the head of the tail zip is (b, acc + w₀)
    have hhead : ((b :: t).zip
        (((weightsOf default (b :: t)).scanl (· + ·)
          (acc + (b.dist - a.dist) * a.speed.getD default)).dropLast)).head? =
        some (b, acc + (b.dist - a.dist) * a.speed.getD default) := by
      obtain ⟨w, ws, hw⟩ : ∃ w ws, weightsOf default (b :: t) = w :: ws := by
        cases hws : weightsOf default (b :: t) with
        | nil => exact absurd hws (weightsOf_ne_nil default b t)
        | cons w ws => exact ⟨w, ws, rfl⟩
      rw [hw, List.scanl_cons, List.singleton_append,
        dropLast_cons_ne _ (scanl_add_ne_nil _ _)]
      simp
    rw [hhead] at hy
    simp only [Option.mem_def, Option.some.injEq] at hy
    subst hy
    constructor
    · exact hd
    · intro hde
      have : (b.dist - a.dist) * a.speed.getD default = 0 := by
        rw [hde]; ring
      simp [this]

/-- The positive-speed coupling version of `chainZipEqAux`. -/
theorem chainZipPosAux (default : ℚ) :
    ∀ (rows : List SRow) (acc : ℚ), List.Chain' rowLe rows →
      (∀ r ∈ rows, 0 < r.speed.getD default) →
      List.Chain' Coupled
        (rows.zip (((weightsOf default rows).scanl (· + ·) acc).dropLast))
  | [], _, _, _ => by simp
  | [a], acc, _, _ => by
    simp [weightsOf, mergedSpeeds, diffShift, List.scanl]
  | a :: b :: t, acc, h, hpos => by
    rw [weightsOf_cons, List.scanl_cons, List.singleton_append,
      dropLast_cons_ne _ (scanl_add_ne_nil _ _), List.zip_cons_cons]
    have hd : a.dist ≤ b.dist := h.rel_head
    have hva : 0 < a.speed.getD default := hpos a (by simp)
    have ih := chainZipPosAux default (b :: t)
      (acc + (b.dist - a.dist) * a.speed.getD default) h.tail
      (fun r hr => hpos r (List.mem_cons_of_mem a hr))
    refine List.chain'_cons'.mpr ⟨?_, ih⟩
    intro y hy
    have hhead : ((b :: t).zip
        (((weightsOf default (b :: t)).scanl (· + ·)
          (acc + (b.dist - a.dist) * a.speed.getD default)).dropLast)).head? =
        some (b, acc + (b.dist - a.dist) * a.speed.getD default) := by
      obtain ⟨w, ws, hw⟩ : ∃ w ws, weightsOf default (b :: t) = w :: ws := by
        cases hws : weightsOf default (b :: t) with
        | nil => exact absurd hws (weightsOf_ne_nil default b t)
        | cons w ws => exact ⟨w, ws, rfl⟩
      rw [hw, List.scanl_cons, List.singleton_append,
        dropLast_cons_ne _ (scanl_add_ne_nil _ _)]
      simp
    rw [hhead] at hy
    simp only [Option.mem_def, Option.some.injEq] at hy
    subst hy
    have hw0 : 0 ≤ (b.dist - a.dist) * a.speed.getD default :=
      mul_nonneg (by linarith) (le_of_lt hva)
    refine ⟨hd, ?_, fun hde => ?_, fun hdl => ?_⟩
    · show acc ≤ acc + (b.dist - a.dist) * a.speed.getD default
      linarith
    · have : (b.dist - a.dist) * a.speed.getD default = 0 := by
        dsimp only at hde
        rw [hde]; ring
      simp [this]
    · show acc < acc + (b.dist - a.dist) * a.speed.getD default
      dsimp only at hdl
      have : 0 < (b.dist - a.dist) * a.speed.getD default :=
        mul_pos (by linarith) hva
      linarith

/-- Relation `RelEq` transported to retained stop triples `(stop_id, dist, swt)`. -/
def RetEq (x y : String × ℚ × ℚ) : Prop :=
  x.2.1 ≤ y.2.1 ∧ (x.2.1 = y.2.1 → x.2.2 = y.2.2)

/-- Relation `Coupled` transported to retained stop triples. -/
def RetPos (x y : String × ℚ × ℚ) : Prop :=
  x.2.1 ≤ y.2.1 ∧ x.2.2 ≤ y.2.2 ∧ (x.2.1 = y.2.1 → x.2.2 = y.2.2) ∧
    (x.2.1 < y.2.1 → x.2.2 < y.2.2)

theorem sortRows_sorted (l : List SRow) : List.Chain' rowLe (sortRows l) :=
  (List.sorted_insertionSort rowLe l).chain'

theorem mem_sortRows {r : SRow} {l : List SRow} :
    r ∈ sortRows l ↔ r ∈ l :=
  (List.perm_insertionSort rowLe l).mem_iff

/-- Along the retained stops of a distance-sorted merged frame, distances
are non-decreasing and the running weight is constant across equal
distances. -/
theorem retainedChainEq (default : ℚ) (rows : List SRow)
    (h : List.Chain' rowLe rows) :
    List.Chain' RetEq (retained default rows) := by
  have hzip : List.Chain' RelEq (rows.zip (mergedSWT default rows)) :=
    chainZipEqAux default rows 0 h
  have hfil : List.Chain' RelEq
      ((rows.zip (mergedSWT default rows)).filter (fun p => p.1.sid.isSome)) :=
    hzip.sublist (List.filter_sublist _)
  rw [retained, List.chain'_map]
  exact hfil.imp (fun _ _ hxy => hxy)

/-- As `retainedChainEq`, with monotone and strictly monotone running
weights when all (sentinel-replaced) speeds are positive. -/
theorem retainedChainPos (default : ℚ) (rows : List SRow)
    (h : List.Chain' rowLe rows)
    (hpos : ∀ r ∈ rows, 0 < r.speed.getD default) :
    List.Chain' RetPos (retained default rows) := by
  have hzip : List.Chain' Coupled (rows.zip (mergedSWT default rows)) :=
    chainZipPosAux default rows 0 h hpos
  have hfil : List.Chain' Coupled
      ((rows.zip (mergedSWT default rows)).filter (fun p => p.1.sid.isSome)) :=
    hzip.sublist (List.filter_sublist _)
  rw [retained, List.chain'_map]
  exact hfil.imp (fun _ _ hxy => hxy)

/-! ### Duration and arrival properties -/

theorem durOf_zero : durOf 0 0 = .fin 0 := by
  simp [durOf, FVal.fdivQ, FVal.divFin, FVal.fillna0]

/-- A coupled consecutive pair of retained stops yields a finite
non-negative duration. -/
theorem durOf_of_retPos {x y : String × ℚ × ℚ} (h : RetPos x y) :
    ∃ q, durOf (y.2.1 - x.2.1) (y.2.2 - x.2.2) = .fin q ∧ 0 ≤ q := by
  rcases lt_or_eq_of_le h.1 with hlt | heq
  · have hw : 0 < y.2.2 - x.2.2 := by
      have := h.2.2.2 hlt
      linarith
    have hd : (0 : ℚ) < y.2.1 - x.2.1 := by linarith
    refine ⟨(y.2.1 - x.2.1) / ((y.2.2 - x.2.2) / (y.2.1 - x.2.1)), ?_, by positivity⟩
    rw [durOf, FVal.fdivQ, if_neg (by linarith : ¬(y.2.1 - x.2.1 = 0))]
    simp only [FVal.fillna0, FVal.divFin]
    rw [FVal.fdivQ,
      if_neg (by positivity : ¬((y.2.2 - x.2.2) / (y.2.1 - x.2.1) = 0))]
  · have hw : y.2.2 - x.2.2 = 0 := by
      have := h.2.2.1 heq
      linarith
    have hd : y.2.1 - x.2.1 = 0 := by linarith
    exact ⟨0, by rw [hd, hw, durOf_zero], le_refl 0⟩

theorem stopDurations_nil : stopDurations [] = [] := rfl

theorem stopDurations_single (x : String × ℚ × ℚ) :
    stopDurations [x] = [.fin 0] := by
  simp [stopDurations, diffShift, durOf_zero]

theorem stopDurations_cons (x y : String × ℚ × ℚ) (t : List (String × ℚ × ℚ)) :
    stopDurations (x :: y :: t) =
      durOf (y.2.1 - x.2.1) (y.2.2 - x.2.2) :: stopDurations (y :: t) := by
  simp [stopDurations, diffShift]

/-- All durations over a `RetPos`-coupled retained list are finite and
non-negative. -/
theorem stopDurations_fin_nonneg :
    ∀ (ret : List (String × ℚ × ℚ)), List.Chain' RetPos ret →
      ∀ v ∈ stopDurations ret, ∃ q, v = .fin q ∧ 0 ≤ q
  | [], _, v, hv => by simp [stopDurations_nil] at hv
  | [x], _, v, hv => by
    rw [stopDurations_single] at hv
    simp at hv
    exact ⟨0, hv, le_refl 0⟩
  | x :: y :: t, h, v, hv => by
    rw [stopDurations_cons] at hv
    rcases List.mem_cons.mp hv with hv | hv
    · obtain ⟨q, hq, hq0⟩ := durOf_of_retPos h.rel_head
      exact ⟨q, hv ▸ hq, hq0⟩
    · exact stopDurations_fin_nonneg (y :: t) h.tail v hv

/-- Running sums of finite, non-negative values starting from a finite
accumulator: every output is finite, at least the accumulator, and the
outputs are non-decreasing. -/
theorem cumsumSkipNan_fin_mono :
    ∀ (l : List FVal) (acc : ℚ), (∀ v ∈ l, ∃ q, v = .fin q ∧ 0 ≤ q) →
      (∀ a ∈ cumsumSkipNan (.fin acc) l, ∃ q, a = .fin q ∧ acc ≤ q) ∧
        List.Chain' (fun a b => ∃ p q, a = .fin p ∧ b = .fin q ∧ p ≤ q)
          (cumsumSkipNan (.fin acc) l)
  | [], acc, _ => by simp [cumsumSkipNan]
  | x :: t, acc, h => by
    obtain ⟨qx, hqx, hqx0⟩ := h x (by simp)
    subst hqx
    have hstep : cumsumSkipNan (.fin acc) (.fin qx :: t) =
        .fin (acc + qx) :: cumsumSkipNan (.fin (acc + qx)) t := by
      simp [cumsumSkipNan, FVal.add]
    obtain ⟨ihmem, ihchain⟩ := cumsumSkipNan_fin_mono t (acc + qx)
      (fun v hv => h v (List.mem_cons_of_mem _ hv))
    rw [hstep]
    constructor
    · intro a ha
      rcases List.mem_cons.mp ha with ha | ha
      · exact ⟨acc + qx, ha, by linarith⟩
      · obtain ⟨q, hq, hq'⟩ := ihmem a ha
        exact ⟨q, hq, by linarith⟩
    · refine List.chain'_cons'.mpr ⟨?_, ihchain⟩
      intro y hy
      obtain ⟨q, hq, hq'⟩ := ihmem y (List.mem_of_mem_head? hy)
      exact ⟨acc + qx, q, rfl, hq, hq'⟩

/-- For a `RetPos`-coupled retained list, every arrival is finite and the
arrivals are non-decreasing. -/
theorem stopArrivals_fin_mono (start : ℚ) (ret : List (String × ℚ × ℚ))
    (h : List.Chain' RetPos ret) :
    (∀ a ∈ stopArrivals start ret, ∃ q, a = .fin q) ∧
      List.Chain' (fun a b : FVal => a.q ≤ b.q) (stopArrivals start ret) := by
  have hdur := stopDurations_fin_nonneg ret h
  rw [stopArrivals]
  cases hds : stopDurations ret with
  | nil => simp [shift1, cumsumSkipNan]
  | cons d ds =>
    rw [hds] at hdur
    have hsh : shift1 (d :: ds) = .nan :: (d :: ds).dropLast := rfl
    rw [hsh]
    have hcs : cumsumSkipNan (.fin 0) (.nan :: (d :: ds).dropLast) =
        .nan :: cumsumSkipNan (.fin 0) ((d :: ds).dropLast) := by
      simp [cumsumSkipNan]
    rw [hcs]
    obtain ⟨hmem, hchain⟩ := cumsumSkipNan_fin_mono ((d :: ds).dropLast) 0
      (fun v hv => hdur v ((List.dropLast_sublist _).mem hv))
    rw [List.map_cons]
    constructor
    · intro a ha
      rcases List.mem_cons.mp ha with ha | ha
      · exact ⟨start, by simpa [FVal.fillna0, FVal.add] using ha⟩
      · obtain ⟨v, hv, hva⟩ := List.mem_map.mp ha
        obtain ⟨q, hq, _⟩ := hmem v hv
        exact ⟨q + start, by rw [← hva, hq]; simp [FVal.fillna0, FVal.add]⟩
    · refine List.chain'_cons'.mpr ⟨?_, ?_⟩
      · intro y hy
        obtain ⟨v, hv, hvy⟩ := List.mem_map.mp
          (List.mem_of_mem_head? hy)
        obtain ⟨q, hq, hq0⟩ := hmem v hv
        rw [← hvy, hq]
        simp [FVal.fillna0, FVal.add, FVal.q]
        linarith
      · rw [List.chain'_map]
        refine hchain.imp ?_
        rintro a b ⟨p, q, hp, hq, hpq⟩
        subst hp; subst hq
        simp [FVal.fillna0, FVal.add, FVal.q]
        linarith

/-! ### Output row assembly -/

theorem buildRows_mem (tid : String) :
    ∀ (i : ℕ) (L : List ((String × ℚ × ℚ) × FVal)), ∀ r ∈ buildRows tid i L,
      ∃ j p, p ∈ L ∧ r = ⟨tid, p.1.1, j, p.2, p.2, p.1.2.1⟩
  | _, [], r, hr => by simp [buildRows] at hr
  | i, (t, a) :: rest, r, hr => by
    rw [buildRows] at hr
    rcases List.mem_cons.mp hr with hr | hr
    · exact ⟨i, (t, a), by simp, hr⟩
    · obtain ⟨j, p, hp, hrp⟩ := buildRows_mem tid (i + 1) rest r hr
      exact ⟨j, p, List.mem_cons_of_mem _ hp, hrp⟩

theorem buildRows_chain (tid : String)
    {P : (String × ℚ × ℚ) × FVal → (String × ℚ × ℚ) × FVal → Prop}
    {R : STRow → STRow → Prop}
    (hPR : ∀ (i j : ℕ) (p q : (String × ℚ × ℚ) × FVal), P p q →
      R ⟨tid, p.1.1, i, p.2, p.2, p.1.2.1⟩ ⟨tid, q.1.1, j, q.2, q.2, q.1.2.1⟩) :
    ∀ (i : ℕ) (L : List ((String × ℚ × ℚ) × FVal)), List.Chain' P L →
      List.Chain' R (buildRows tid i L)
  | _, [], _ => by simp [buildRows]
  | _, [(t, a)], _ => by simp [buildRows]
  | i, (t, a) :: (u, b) :: rest, h => by
    rw [buildRows, buildRows]
    refine List.Chain'.cons (hPR i (i + 1) (t, a) (u, b) h.rel_head) ?_
    rw [← buildRows]
    exact buildRows_chain tid hPR (i + 1) ((u, b) :: rest) h.tail

theorem buildRows_zip_map (tid : String) (g : FVal → FVal) :
    ∀ (i : ℕ) (ret : List (String × ℚ × ℚ)) (arr : List FVal),
      buildRows tid i (ret.zip (arr.map g)) =
        (buildRows tid i (ret.zip arr)).map
          (fun r => { r with arrival_time := g r.arrival_time,
                             departure_time := g r.departure_time })
  | _, [], arr => by simp [buildRows]
  | _, t :: rest, [] => by simp [buildRows]
  | i, t :: rest, a :: arr => by
    simp only [List.map_cons, List.zip_cons_cons, buildRows]
    exact congrArg _ (buildRows_zip_map tid g (i + 1) rest arr)

/-! ### Positive speeds in the merged frame of `build_stop_times_for_trip` -/

theorem kmh_pos : 0 < kmh := by norm_num [kmh]

/-- Under positive zone speeds, positive shape-point speeds, and a positive
default speed, every row fed into `synthCore` by `build_stop_times_for_trip`
carries a positive (sentinel-replaced, unit-converted) speed. -/
theorem mergedRows_pos (stops : List Stop) (project : ℚ × ℚ → ℚ)
    (zoneMatches : ℚ × ℚ → List (Option ℚ)) (shape_id : String)
    (spsTable : List SpsRow) (default_speed : ℚ)
    (hz : ∀ s ∈ stops, ∀ sp ∈ zoneMatches s.pt, ∀ v, sp = some v → 0 < v)
    (hs : ∀ r ∈ spsTable, ∀ v, r.speed = some v → 0 < v)
    (hd : 0 < default_speed) :
    ∀ r ∈ tripMergedRows stops project zoneMatches shape_id spsTable,
      0 < r.speed.getD (default_speed * kmh) := by
  intro r hr
  rcases List.mem_append.mp hr with hr | hr
  · rw [mem_sortRows] at hr
    obtain ⟨s, hsm, hrs⟩ := List.mem_flatMap.mp hr
    obtain ⟨sp, hsp, hspr⟩ := List.mem_map.mp hrs
    subst hspr
    cases sp with
    | none => simpa using mul_pos hd kmh_pos
    | some v =>
      have hv := hz s hsm (some v) hsp v rfl
      simpa using mul_pos hv kmh_pos
  · obtain ⟨p, hpm, hpr⟩ := List.mem_map.mp hr
    subst hpr
    have hpm' := List.mem_of_mem_filter hpm
    cases hps : p.speed with
    | none => simpa [hps] using mul_pos hd kmh_pos
    | some v =>
      have hv := hs p hpm' v hps
      simpa [hps] using mul_pos hv kmh_pos

/-! ### Indexed access to the duration column -/

theorem stopDurations_getElem? (ret : List (String × ℚ × ℚ)) (i : ℕ)
    (a b : String × ℚ × ℚ) (ha : ret[i]? = some a) (hb : ret[i + 1]? = some b) :
    (stopDurations ret)[i]? = some (durOf (b.2.1 - a.2.1) (b.2.2 - a.2.2)) := by
  have h1 : (ret.map (fun t => t.2.1))[i]? = some a.2.1 := by
    rw [List.getElem?_map, ha]; rfl
  have h2 : (ret.map (fun t => t.2.1))[i + 1]? = some b.2.1 := by
    rw [List.getElem?_map, hb]; rfl
  have h3 : (ret.map (fun t => t.2.2))[i]? = some a.2.2 := by
    rw [List.getElem?_map, ha]; rfl
  have h4 : (ret.map (fun t => t.2.2))[i + 1]? = some b.2.2 := by
    rw [List.getElem?_map, hb]; rfl
  exact zipWith_getElem? durOf _ _ i _ _
    (diffShift_getElem? _ i _ _ h1 h2) (diffShift_getElem? _ i _ _ h3 h4)

/-- Value of `durOf` over a span of positive length and non-zero weight gain: the
span length divided by the distance-weighted average speed. -/
theorem durOf_formula (dd dw : ℚ) (hd : dd ≠ 0) (hw : dw ≠ 0) :
    durOf dd dw = .fin (dd / (dw / dd)) := by
  rw [durOf, FVal.fdivQ, if_neg hd]
  simp only [FVal.fillna0, FVal.divFin]
  rw [FVal.fdivQ, if_neg (div_ne_zero hw hd)]

/-- The two-zone example of the specification: a straight 1000-unit path
split at distance 500 into a zone of speed 10 and a zone of speed 50, with
one stop at each endpoint; stop rows first, then the speed-profile rows, as
`pd.concat([f, sps])` produces before the final sort. -/
def exampleTwoZoneRows : List SRow :=
  [⟨some "s0", 0, some 10⟩, ⟨some "s1", 1000, some 50⟩,
   ⟨none, 0, some 10⟩, ⟨none, 500, some 50⟩, ⟨none, 1000, some 50⟩]

theorem exampleTwoZoneArrivals :
    (synthCore "t1" 100 0 exampleTwoZoneRows).map (fun r => r.arrival_time) =
      [.fin 0, .fin (1000 / 30)] := by
  norm_num [synthCore, exampleTwoZoneRows, sortRows, List.insertionSort,
    List.orderedInsert, rowLe, retained, mergedSWT, weightsOf, mergedSpeeds,
    diffShift, cumsumExcl, List.scanl, stopArrivals, stopDurations, durOf,
    FVal.fdivQ, FVal.divFin, FVal.fillna0, shift1, cumsumSkipNan, FVal.add,
    buildRows]

/-- C1 counterexample: on the spec's own two-zone example the synthesizer
yields an arrival time of `1000/30 ≈ 33.33` at the second stop — the value
the claim asserts it must not produce — and not `500/10 + 500/50 = 60`. -/
theorem c1_counterexample :
    (synthCore "t1" 100 0 exampleTwoZoneRows).map (fun r => r.arrival_time) =
      [.fin 0, .fin (1000 / 30)] ∧ ¬((1000 / 30 : ℚ) = 60) :=
  ⟨exampleTwoZoneArrivals, by norm_num⟩

/-- C1 (amended): between consecutive retained stops the synthesizer uses
the distance-weighted average speed `Δweight / Δdistance` and duration
`Δdistance / avg_speed`; on the spec's two-zone example (zones of speeds 10
and 50, stops at the endpoints, start time 0) this yields an arrival time of
`1000 / 30 ≈ 33.33` time units at the second stop — equal to
`Δdistance / (weighted mean speed 30)` — rather than
`500/10 + 500/50 = 60`. -/
theorem c1_amended_weighted_integration (ret : List (String × ℚ × ℚ)) (i : ℕ)
    (a b : String × ℚ × ℚ) (ha : ret[i]? = some a) (hb : ret[i + 1]? = some b)
    (hd : ¬(b.2.1 - a.2.1 = 0)) (hw : ¬(b.2.2 - a.2.2 = 0)) :
    (stopDurations ret)[i]? =
      some (.fin ((b.2.1 - a.2.1) / ((b.2.2 - a.2.2) / (b.2.1 - a.2.1)))) ∧
    (synthCore "t1" 100 0 exampleTwoZoneRows).map (fun r => r.arrival_time) =
      [.fin 0, .fin (1000 / 30)] := by
  constructor
  · rw [stopDurations_getElem? ret i a b ha hb, durOf_formula _ _ hd hw]
  · exact exampleTwoZoneArrivals

/-- C3: for every trip and every input ordering of the candidate stops, the
stop-time rows built by `build_stop_times_for_trip` (with positive zone
speeds, positive shape-point speeds and a positive default speed) are sorted
by non-decreasing `shape_dist_traveled` and non-decreasing `arrival_time`
(all arrivals being finite), and `arrival_time = departure_time` holds in
every row. -/
theorem c3_stop_times_sorted (tid : String) (stops : List Stop)
    (project : ℚ × ℚ → ℚ) (zoneMatches : ℚ × ℚ → List (Option ℚ))
    (shape_id : String) (spsTable : List SpsRow) (default_speed start : ℚ)
    (hz : ∀ s ∈ stops, ∀ sp ∈ zoneMatches s.pt, ∀ v, sp = some v → 0 < v)
    (hs : ∀ r ∈ spsTable, ∀ v, r.speed = some v → 0 < v)
    (hd : 0 < default_speed) :
    List.Chain' (fun a b => a.shape_dist_traveled ≤ b.shape_dist_traveled)
      (buildStopTimesForTrip tid stops project zoneMatches shape_id spsTable
        default_speed start) ∧
    (∀ r ∈ buildStopTimesForTrip tid stops project zoneMatches shape_id
        spsTable default_speed start, ∃ q, r.arrival_time = .fin q) ∧
    List.Chain' (fun a b => a.arrival_time.q ≤ b.arrival_time.q)
      (buildStopTimesForTrip tid stops project zoneMatches shape_id spsTable
        default_speed start) ∧
    (∀ r ∈ buildStopTimesForTrip tid stops project zoneMatches shape_id
        spsTable default_speed start, r.departure_time = r.arrival_time) := by
  have hpos := mergedRows_pos stops project zoneMatches shape_id spsTable
    default_speed hz hs hd
  have hpos' : ∀ r ∈ sortRows (tripMergedRows stops project zoneMatches
      shape_id spsTable), 0 < r.speed.getD (default_speed * kmh) :=
    fun r hr => hpos r (mem_sortRows.mp hr)
  have hret : List.Chain' RetPos (retained (default_speed * kmh)
      (sortRows (tripMergedRows stops project zoneMatches shape_id spsTable))) :=
    retainedChainPos _ _ (sortRows_sorted _) hpos'
  have harr := stopArrivals_fin_mono start _ hret
  rw [buildStopTimesForTrip, synthCore]
  refine ⟨?_, ?_, ?_, ?_⟩
  · have hchain : List.Chain'
        (fun p q : (String × ℚ × ℚ) × FVal => p.1.2.1 ≤ q.1.2.1)
        ((retained (default_speed * kmh) (sortRows (tripMergedRows stops
          project zoneMatches shape_id spsTable))).zip
          (stopArrivals start (retained (default_speed * kmh)
            (sortRows (tripMergedRows stops project zoneMatches shape_id
              spsTable))))) :=
      chain'_zip_left _ (hret.imp (fun _ _ hxy => hxy.1))
    exact buildRows_chain tid (fun i j p q hpq => hpq) 0 _ hchain
  · intro r hr
    obtain ⟨j, p, hp, hrp⟩ := buildRows_mem tid 0 _ r hr
    obtain ⟨q, hq⟩ := harr.1 p.2 (List.of_mem_zip hp).2
    exact ⟨q, by rw [hrp]; exact hq⟩
  · have hchain : List.Chain'
        (fun p q : (String × ℚ × ℚ) × FVal => p.2.q ≤ q.2.q)
        ((retained (default_speed * kmh) (sortRows (tripMergedRows stops
          project zoneMatches shape_id spsTable))).zip
          (stopArrivals start (retained (default_speed * kmh)
            (sortRows (tripMergedRows stops project zoneMatches shape_id
              spsTable))))) :=
      chain'_zip_right _ harr.2
    exact buildRows_chain tid (fun i j p q hpq => hpq) 0 _ hchain
  · intro r hr
    obtain ⟨j, p, hp, hrp⟩ := buildRows_mem tid 0 _ r hr
    rw [hrp]

/-- C3 witness: the sortedness guarantees at a concrete one-stop input. -/
theorem c3_stop_times_sorted_witness :
    (0 : ℚ) < 22 ∧
    (List.Chain' (fun a b => a.shape_dist_traveled ≤ b.shape_dist_traveled)
      (buildStopTimesForTrip "w" [⟨"s0", (0, 0)⟩] (fun _ => 0)
        (fun _ => [some 10]) "sh" [] 22 0) ∧
    (∀ r ∈ buildStopTimesForTrip "w" [⟨"s0", (0, 0)⟩] (fun _ => 0)
        (fun _ => [some 10]) "sh" [] 22 0, ∃ q, r.arrival_time = .fin q) ∧
    List.Chain' (fun a b => a.arrival_time.q ≤ b.arrival_time.q)
      (buildStopTimesForTrip "w" [⟨"s0", (0, 0)⟩] (fun _ => 0)
        (fun _ => [some 10]) "sh" [] 22 0) ∧
    (∀ r ∈ buildStopTimesForTrip "w" [⟨"s0", (0, 0)⟩] (fun _ => 0)
        (fun _ => [some 10]) "sh" [] 22 0, r.departure_time = r.arrival_time)) :=
  ⟨by norm_num,
   c3_stop_times_sorted "w" [⟨"s0", (0, 0)⟩] (fun _ => 0) (fun _ => [some 10])
     "sh" [] 22 0
     (by intro s hs sp hsp v hv
         simp at hs hsp
         subst hs
         rw [hsp] at hv
         cases hv
         norm_num)
     (by intro r hr v hv
         simp at hr)
     (by norm_num)⟩

/-- C8: along the sorted merged frame of `build_stop_times_for_trip`, any
two consecutive retained stops at coincident distances get duration exactly
`fin 0` (never NaN or infinity), and — with positive zone, shape-point, and
default speeds — every duration, arrival time and departure time the
synthesizer outputs is finite (never NaN or ±infinity). -/
theorem c8_zero_length_and_finiteness (tid : String) (stops : List Stop)
    (project : ℚ × ℚ → ℚ) (zoneMatches : ℚ × ℚ → List (Option ℚ))
    (shape_id : String) (spsTable : List SpsRow) (default_speed start : ℚ)
    (hz : ∀ s ∈ stops, ∀ sp ∈ zoneMatches s.pt, ∀ v, sp = some v → 0 < v)
    (hs : ∀ r ∈ spsTable, ∀ v, r.speed = some v → 0 < v)
    (hd : 0 < default_speed) :
    (∀ (i : ℕ) (a b : String × ℚ × ℚ),
      (retained (default_speed * kmh) (sortRows (tripMergedRows stops project
        zoneMatches shape_id spsTable)))[i]? = some a →
      (retained (default_speed * kmh) (sortRows (tripMergedRows stops project
        zoneMatches shape_id spsTable)))[i + 1]? = some b →
      a.2.1 = b.2.1 →
      (stopDurations (retained (default_speed * kmh) (sortRows (tripMergedRows
        stops project zoneMatches shape_id spsTable))))[i]? = some (.fin 0)) ∧
    (∀ v ∈ stopDurations (retained (default_speed * kmh) (sortRows
        (tripMergedRows stops project zoneMatches shape_id spsTable))),
      v.isFin = true) ∧
    (∀ r ∈ buildStopTimesForTrip tid stops project zoneMatches shape_id
        spsTable default_speed start,
      r.arrival_time.isFin = true ∧ r.departure_time.isFin = true) := by
  have hpos := mergedRows_pos stops project zoneMatches shape_id spsTable
    default_speed hz hs hd
  have hpos' : ∀ r ∈ sortRows (tripMergedRows stops project zoneMatches
      shape_id spsTable), 0 < r.speed.getD (default_speed * kmh) :=
    fun r hr => hpos r (mem_sortRows.mp hr)
  have hretEq : List.Chain' RetEq (retained (default_speed * kmh)
      (sortRows (tripMergedRows stops project zoneMatches shape_id spsTable))) :=
    retainedChainEq _ _ (sortRows_sorted _)
  have hret : List.Chain' RetPos (retained (default_speed * kmh)
      (sortRows (tripMergedRows stops project zoneMatches shape_id spsTable))) :=
    retainedChainPos _ _ (sortRows_sorted _) hpos'
  refine ⟨?_, ?_, ?_⟩
  · intro i a b ha hb hab
    have hrel : RetEq a b := chain'_getElem? hretEq i a b ha hb
    have hw : a.2.2 = b.2.2 := hrel.2 hab
    rw [stopDurations_getElem? _ i a b ha hb]
    rw [show b.2.1 - a.2.1 = 0 by rw [hab]; ring,
      show b.2.2 - a.2.2 = 0 by rw [hw]; ring, durOf_zero]
  · intro v hv
    obtain ⟨q, hq, _⟩ := stopDurations_fin_nonneg _ hret v hv
    rw [hq]; rfl
  · intro r hr
    rw [buildStopTimesForTrip, synthCore] at hr
    obtain ⟨j, p, hp, hrp⟩ := buildRows_mem tid 0 _ r hr
    obtain ⟨q, hq⟩ := (stopArrivals_fin_mono start _ hret).1 p.2
      (List.of_mem_zip hp).2
    constructor
    · rw [hrp]; exact hq ▸ rfl
    · rw [hrp]; exact hq ▸ rfl

/-- C8 witness: zero-length pair duration and finiteness at a concrete
input with two stops at the same distance. -/
theorem c8_zero_length_and_finiteness_witness :
    (0 : ℚ) < 22 ∧
    ((stopDurations (retained (22 * kmh) (sortRows (tripMergedRows
        [⟨"s0", (0, 0)⟩, ⟨"s1", (0, 1)⟩] (fun _ => 5) (fun _ => [some 10])
        "sh" []))))[0]? = some (.fin 0) ∧
    (∀ r ∈ buildStopTimesForTrip "w8" [⟨"s0", (0, 0)⟩, ⟨"s1", (0, 1)⟩]
        (fun _ => 5) (fun _ => [some 10]) "sh" [] 22 7,
      r.arrival_time.isFin = true ∧ r.departure_time.isFin = true)) := by
  have h := c8_zero_length_and_finiteness "w8" [⟨"s0", (0, 0)⟩, ⟨"s1", (0, 1)⟩]
    (fun _ => 5) (fun _ => [some 10]) "sh" [] 22 7
    (by intro s hs sp hsp v hv
        simp at hsp
        rw [hsp] at hv
        cases hv
        norm_num)
    (by intro r hr v hv
        simp at hr)
    (by norm_num)
  refine ⟨by norm_num, ?_, h.2.2⟩
  refine h.1 0 ("s0", 5, 0) ("s1", 5, 0) ?_ ?_ rfl
  · norm_num [retained, tripMergedRows, sortRows, List.insertionSort,
      List.orderedInsert, rowLe, mergedSWT, weightsOf, mergedSpeeds, diffShift,
      cumsumExcl, List.scanl, kmh]
  · norm_num [retained, tripMergedRows, sortRows, List.insertionSort,
      List.orderedInsert, rowLe, mergedSWT, weightsOf, mergedSpeeds, diffShift,
      cumsumExcl, List.scanl, kmh]

theorem fillna0_add_zero_add (v : FVal) (t : ℚ) :
    (v.fillna0.add (.fin 0)).add (.fin t) = v.fillna0.add (.fin t) := by
  cases v <;> simp [FVal.fillna0, FVal.add]

theorem stopArrivals_shift (start : ℚ) (ret : List (String × ℚ × ℚ)) :
    stopArrivals start ret =
      (stopArrivals 0 ret).map (fun v => v.add (.fin start)) := by
  rw [stopArrivals, stopArrivals, List.map_map]
  refine List.map_congr_left ?_
  intro v _
  exact (fillna0_add_zero_add v start).symm

/-- C5: for a fixed shape, stop set, speed profile and default speed, the
stop-time synthesis at start time `t` is exactly the synthesis at start time
0 with `t` added to every arrival and departure time and all other columns
unchanged. -/
theorem c5_start_time_shift (tid : String) (stops : List Stop)
    (project : ℚ × ℚ → ℚ) (zoneMatches : ℚ × ℚ → List (Option ℚ))
    (shape_id : String) (spsTable : List SpsRow) (default_speed t : ℚ) :
    buildStopTimesForTrip tid stops project zoneMatches shape_id spsTable
        default_speed t =
      (buildStopTimesForTrip tid stops project zoneMatches shape_id spsTable
          default_speed 0).map
        (fun r => { r with arrival_time := r.arrival_time.add (.fin t),
                           departure_time := r.departure_time.add (.fin t) }) := by
  rw [buildStopTimesForTrip, buildStopTimesForTrip, synthCore, synthCore,
    stopArrivals_shift t]
  exact buildRows_zip_map tid (fun v => v.add (.fin t)) 0 _ _

/-- C1 witness: the amended duration formula applied to the first stop pair
of the two-zone example, where it evaluates to `1000 / (30000 / 1000)`,
that is `1000 / 30`. -/
theorem c1_amended_weighted_integration_witness :
    (retained 100 (sortRows exampleTwoZoneRows))[0]? = some ("s0", 0, 0) ∧
    (retained 100 (sortRows exampleTwoZoneRows))[1]? = some ("s1", 1000, 30000) ∧
    ((stopDurations (retained 100 (sortRows exampleTwoZoneRows)))[0]? =
      some (.fin ((1000 - 0) / ((30000 - 0) / (1000 - 0)))) ∧
    (synthCore "t1" 100 0 exampleTwoZoneRows).map (fun r => r.arrival_time) =
      [.fin 0, .fin (1000 / 30)]) := by
  have ha : (retained 100 (sortRows exampleTwoZoneRows))[0]? =
      some ("s0", 0, 0) := by
    norm_num [retained, exampleTwoZoneRows, sortRows, List.insertionSort,
      List.orderedInsert, rowLe, mergedSWT, weightsOf, mergedSpeeds, diffShift,
      cumsumExcl, List.scanl]
  have hb : (retained 100 (sortRows exampleTwoZoneRows))[1]? =
      some ("s1", 1000, 30000) := by
    norm_num [retained, exampleTwoZoneRows, sortRows, List.insertionSort,
      List.orderedInsert, rowLe, mergedSWT, weightsOf, mergedSpeeds, diffShift,
      cumsumExcl, List.scanl]
  exact ⟨ha, hb,
    c1_amended_weighted_integration (retained 100 (sortRows exampleTwoZoneRows))
      0 ("s0", 0, 0) ("s1", 1000, 30000) ha hb (by norm_num) (by norm_num)⟩

/-! ### Trip generation (`build_trips`) -/

/-- Python `int()` on a rational: truncation toward zero. -/
def pyInt (q : ℚ) : ℤ := q.num.tdiv q.den

/-- A structured trip identifier; `build_trips` serializes it as
`"-".join(["t", route, window, start, direction, index])` and
`build_stop_times` recovers the fields by splitting on the separator. -/
structure TId where
  route : String
  window : String
  start : ℕ
  dir : ℕ
  idx : ℕ
  deriving DecidableEq

/-- A row of `trips.txt` as produced by `build_trips`; the direction-
qualified shape ID is kept as the `(shape, direction)` pair that
`"{}{}{}".format(shape, SEP, direction)` encodes. -/
structure TripRec where
  route_id : String
  trip_id : TId
  direction_id : ℕ
  shape_id : String × ℕ
  service_id : String
  deriving DecidableEq

/-- One row of the merge of `routes`, `pfeed.frequencies` and
`pfeed.service_windows` that `build_trips` iterates over, with the window's
start and end times in seconds past midnight (the `timestr_to_seconds`
conversion of gtfs_kit) and the service ID already resolved through
`service_by_window`. -/
structure FreqRow where
  route_id : String
  shape_id : String
  service_window_id : String
  start : ℕ
  stop : ℕ
  frequency : ℕ
  direction : ℕ
  service_id : String
  deriving DecidableEq

/-- The trips generated from one merged frequency × service-window row:
`duration = (end - start) / 3600` hours, zero frequency is skipped
silently, `num_trips_per_direction = int(frequency * duration)`, and
`direction == 2` expands to directions 0 and 1, each with the full count. -/
def tripsForRow (r : FreqRow) : List TripRec :=
  if r.frequency = 0 then []
  else
    let duration : ℚ := ((r.stop : ℚ) - (r.start : ℚ)) / 3600
    let n := (pyInt ((r.frequency : ℚ) * duration)).toNat
    let dirs := if r.direction = 2 then [0, 1] else [r.direction]
    dirs.flatMap (fun d =>
      (List.range n).map (fun i =>
        ⟨r.route_id, ⟨r.route_id, r.service_window_id, r.start, d, i⟩, d,
          (r.shape_id, d), r.service_id⟩))

/-- Model of `build_trips`: concatenate the trips of every merged row. -/
def buildTrips (rows : List FreqRow) : List TripRec :=
  rows.flatMap tripsForRow

theorem pyInt_nonneg_eq_floor (q : ℚ) (h : 0 ≤ q) : pyInt q = ⌊q⌋ := by
  rw [pyInt, Rat.floor_def, Int.tdiv_eq_ediv (Rat.num_nonneg.mpr h) (by positivity)]

/-- C2: for every merged FrequencySpec × ServiceWindow row (with
`start ≤ end`), `build_trips` yields per produced direction exactly
`⌊frequency × duration_hours⌋` trips with `duration_hours = (end − start) /
3600`; `direction = 2` produces that full count for direction 0 and again
for direction 1, a single direction produces one group of that size, and
zero frequency produces no trips and no error. -/
theorem c2_build_trips_counts (r : FreqRow) (h : r.start ≤ r.stop) :
    (r.frequency = 0 → buildTrips [r] = []) ∧
    (r.direction = 2 →
      ((buildTrips [r]).filter (fun t => t.direction_id == 0)).length =
        (⌊(r.frequency : ℚ) * (((r.stop : ℚ) - (r.start : ℚ)) / 3600)⌋).toNat ∧
      ((buildTrips [r]).filter (fun t => t.direction_id == 1)).length =
        (⌊(r.frequency : ℚ) * (((r.stop : ℚ) - (r.start : ℚ)) / 3600)⌋).toNat ∧
      ∀ t ∈ buildTrips [r], t.direction_id = 0 ∨ t.direction_id = 1) ∧
    (¬(r.direction = 2) → r.frequency ≠ 0 →
      (buildTrips [r]).length =
        (⌊(r.frequency : ℚ) * (((r.stop : ℚ) - (r.start : ℚ)) / 3600)⌋).toNat ∧
      ∀ t ∈ buildTrips [r], t.direction_id = r.direction) := by
  have hdur : (0 : ℚ) ≤ ((r.stop : ℚ) - (r.start : ℚ)) / 3600 := by
    have hc : (r.start : ℚ) ≤ (r.stop : ℚ) := by exact_mod_cast h
    have h36 : (0 : ℚ) ≤ 3600 := by norm_num
    exact div_nonneg (by linarith) h36
  have hfloor : pyInt ((r.frequency : ℚ) * (((r.stop : ℚ) - (r.start : ℚ)) / 3600)) =
      ⌊(r.frequency : ℚ) * (((r.stop : ℚ) - (r.start : ℚ)) / 3600)⌋ :=
    pyInt_nonneg_eq_floor _ (mul_nonneg (by positivity) hdur)
  refine ⟨?_, ?_, ?_⟩
  · intro h0
    simp [buildTrips, tripsForRow, h0]
  · intro h2
    by_cases h0 : r.frequency = 0
    · simp [h2, h0] at hfloor ⊢
      constructor
      · simp [buildTrips, tripsForRow, h0, ← hfloor, pyInt]
      · constructor
        · simp [buildTrips, tripsForRow, h0, ← hfloor, pyInt]
        · intro t ht
          simp [buildTrips, tripsForRow, h0] at ht
    · refine ⟨?_, ?_, ?_⟩
      · rw [buildTrips, List.flatMap_cons, List.flatMap_nil, List.append_nil,
          tripsForRow, if_neg h0, ← hfloor]
        simp [h2, List.filter_append, List.filter_map, Function.comp_def]
      · rw [buildTrips, List.flatMap_cons, List.flatMap_nil, List.append_nil,
          tripsForRow, if_neg h0, ← hfloor]
        simp [h2, List.filter_append, List.filter_map, Function.comp_def]
      · intro t ht
        rw [buildTrips, List.flatMap_cons, List.flatMap_nil, List.append_nil,
          tripsForRow, if_neg h0] at ht
        simp [h2] at ht
        rcases ht with ⟨i, _, hti⟩ | ⟨i, _, hti⟩
        · left; rw [← hti]
        · right; rw [← hti]
  · intro h2 h0
    constructor
    · rw [buildTrips, List.flatMap_cons, List.flatMap_nil, List.append_nil,
        tripsForRow, if_neg h0, ← hfloor]
      simp [h2]
    · intro t ht
      rw [buildTrips, List.flatMap_cons, List.flatMap_nil, List.append_nil,
        tripsForRow, if_neg h0] at ht
      simp [h2] at ht
      obtain ⟨i, _, hti⟩ := ht
      rw [← hti]

/-- C2 witness: 4 vehicles per hour over a 3-hour window in both directions
give two groups of 12 trips each. -/
theorem c2_build_trips_counts_witness :
    (21600 : ℕ) ≤ 32400 ∧
    ((buildTrips [⟨"r1", "sh", "wk", 21600, 32400, 4, 2, "srv"⟩]).filter
        (fun t => t.direction_id == 0)).length =
      (⌊(4 : ℚ) * (((32400 : ℚ) - (21600 : ℚ)) / 3600)⌋).toNat ∧
    (⌊(4 : ℚ) * (((32400 : ℚ) - (21600 : ℚ)) / 3600)⌋).toNat = 12 := by
  refine ⟨by norm_num, ?_,
    by rw [show ⌊(4 : ℚ) * (((32400 : ℚ) - (21600 : ℚ)) / 3600)⌋ = (12 : ℤ)
        from by norm_num]
       rfl⟩
  exact ((c2_build_trips_counts ⟨"r1", "sh", "wk", 21600, 32400, 4, 2, "srv"⟩
    (by norm_num)).2.1 rfl).1

/-! ### Directional buffering (`buffer_side`) and stop lookup

Shapely geometry is abstracted by a polygon type `P` and the primitives the
code calls on it: `bufferL side-effect-free buffering of the linestring by a
radius with a cap style (2 = flat, 3 = square), `difference`, `polygonize`
(the fragment decomposition, in order), and `bufferP` (buffering a
polygon). -/

/-- Model of `buffer_side(linestring, side, buffer)`: the two-sided corridor is
`linestring.buffer(buffer, cap_style=2)`; for `side ∈ {"left","right"}` with
positive buffer, a sliver of half-width `eps = min(buffer/2, 0.001)` with
square caps is subtracted, the remainder is polygonized, the first fragment
(for "left") or last fragment (for "right") is selected and re-buffered by
`1.1 * eps`. -/
def bufferSide {P : Type} [Inhabited P] (bufferL : ℚ → ℕ → P)
    (difference : P → P → P) (polygonize : P → List P) (bufferP : P → ℚ → P)
    (side : String) (buffer : ℚ) : P :=
  let b := bufferL buffer 2
  if (side = "left" ∨ side = "right") ∧ 0 < buffer then
    let eps := min (buffer / 2) (1 / 1000)
    let b0 := bufferL eps 3
    let polys := polygonize (difference b b0)
    if side = "left" then bufferP polys.headI (11 / 10 * eps)
    else bufferP polys.getLastI (11 / 10 * eps)
  else b

/-- Model of `get_stops_nearby`: all stops whose geometry intersects
`buffer_side(linestring, side, buffer)`. -/
def getStopsNearby {P : Type} [Inhabited P] (bufferL : ℚ → ℕ → P)
    (difference : P → P → P) (polygonize : P → List P) (bufferP : P → ℚ → P)
    (intersects : ℚ × ℚ → P → Bool) (geo_stops : List Stop)
    (side : String) (buffer : ℚ) : List Stop :=
  geo_stops.filter
    (fun s => intersects s.pt
      (bufferSide bufferL difference polygonize bufferP side buffer))

/-- C6: `buffer_side` returns the full flat-capped two-sided corridor
unmodified whenever `side = "both"` or `buffer = 0`; for `side = "left"`
(resp. `"right"`) with positive buffer it splits the corridor with a
square-capped sliver of radius `eps = min(buffer/2, 0.001)`, takes the
first (resp. last) fragment of the polygonized remainder, and re-inflates
it by `1.1 × eps`. -/
theorem c6_buffer_side {P : Type} [Inhabited P] (bufferL : ℚ → ℕ → P)
    (difference : P → P → P) (polygonize : P → List P) (bufferP : P → ℚ → P)
    (side : String) (buffer : ℚ) :
    ((side = "both" ∨ buffer = 0) →
      bufferSide bufferL difference polygonize bufferP side buffer =
        bufferL buffer 2) ∧
    (0 < buffer →
      bufferSide bufferL difference polygonize bufferP "left" buffer =
        bufferP (polygonize (difference (bufferL buffer 2)
            (bufferL (min (buffer / 2) (1 / 1000)) 3))).headI
          (11 / 10 * min (buffer / 2) (1 / 1000))) ∧
    (0 < buffer →
      bufferSide bufferL difference polygonize bufferP "right" buffer =
        bufferP (polygonize (difference (bufferL buffer 2)
            (bufferL (min (buffer / 2) (1 / 1000)) 3))).getLastI
          (11 / 10 * min (buffer / 2) (1 / 1000))) := by
  refine ⟨?_, ?_, ?_⟩
  · intro h
    rcases h with h | h
    · subst h
      rw [bufferSide, if_neg]
      rintro ⟨hs, _⟩
      rcases hs with hs | hs <;> exact absurd hs (by decide)
    · subst h
      rw [bufferSide, if_neg]
      rintro ⟨_, hb⟩
      exact absurd hb (by norm_num)
  · intro hb
    rw [bufferSide, if_pos ⟨Or.inl rfl, hb⟩, if_pos rfl]
  · intro hb
    rw [bufferSide, if_pos ⟨Or.inr rfl, hb⟩, if_neg (by decide)]

/-- C6 witness: the three behaviours at concrete inputs over `P = ℕ` with
dummy geometry primitives. -/
theorem c6_buffer_side_witness :
    ((("both" : String) = "both" ∨ (5 : ℚ) = 0) →
      bufferSide (fun _ _ => 0) (fun a b => a + b) (fun a => [a, a + 1])
        (fun a _ => a + 2) "both" (5 : ℚ) = (fun (_ : ℚ) (_ : ℕ) => 0) 5 2) ∧
    ((0 : ℚ) < 5 →
      bufferSide (fun _ _ => 0) (fun a b => a + b) (fun a => [a, a + 1])
        (fun a _ => a + 2) "left" (5 : ℚ) =
        (fun (a : ℕ) (_ : ℚ) => a + 2)
          ((fun (a : ℕ) => [a, a + 1]) ((fun (a b : ℕ) => a + b)
            ((fun (_ : ℚ) (_ : ℕ) => 0) 5 2)
            ((fun (_ : ℚ) (_ : ℕ) => 0) (min ((5 : ℚ) / 2) (1 / 1000)) 3))).headI
          (11 / 10 * min ((5 : ℚ) / 2) (1 / 1000))) ∧
    ((0 : ℚ) < 5 →
      bufferSide (fun _ _ => 0) (fun a b => a + b) (fun a => [a, a + 1])
        (fun a _ => a + 2) "right" (5 : ℚ) =
        (fun (a : ℕ) (_ : ℚ) => a + 2)
          ((fun (a : ℕ) => [a, a + 1]) ((fun (a b : ℕ) => a + b)
            ((fun (_ : ℚ) (_ : ℕ) => 0) 5 2)
            ((fun (_ : ℚ) (_ : ℕ) => 0) (min ((5 : ℚ) / 2) (1 / 1000)) 3))).getLastI
          (11 / 10 * min ((5 : ℚ) / 2) (1 / 1000))) :=
  c6_buffer_side (fun _ _ => 0) (fun a b => a + b) (fun a => [a, a + 1])
    (fun a _ => a + 2) "both" 5

/-! ### The per-trip loop of `build_stop_times` -/

/-- A trip row of the merged trips/routes frame inside `build_stop_times`,
reduced to what the loop body reads: the structured content of its trip ID
and the route's frequency. -/
structure GTrip where
  tid : TId
  frequency : ℕ
  deriving DecidableEq

/-- Serialization of a trip ID, `SEP.join(["t", route, window, start,
direction, index])`. -/
def tidString (t : TId) : String :=
  String.intercalate "-"
    ["t", t.route, t.window, toString t.start, toString t.dir, toString t.idx]

/-- The trip start time `start_time = base_time + headway * int(i)` with
`headway = 3600 / frequency`, where `base_time` is the service window start
encoded in the trip ID. -/
def startTimeOf (t : GTrip) : ℚ :=
  (t.tid.start : ℚ) + 3600 / (t.frequency : ℚ) * (t.tid.idx : ℚ)

/-- Fill in the real trip ID and shift the cached template (built with
`start_time = 0`) by the trip's start time: `arrival_time += start_time` and
`departure_time = arrival_time`. -/
def processTrip (t : GTrip) (template : List STRow) : List STRow :=
  template.map (fun r =>
    { r with trip_id := tidString t.tid,
             arrival_time := r.arrival_time.add (.fin (startTimeOf t)),
             departure_time := r.arrival_time.add (.fin (startTimeOf t)) })

/-- The body of `build_stop_times` for one `(route_type, shape_id, speed)`
group: find the nearby stops on the traffic side; with no nearby stops the
group contributes nothing; otherwise each trip of non-zero frequency gets
the template of `_build_stop_times_for_trip` (computed at `start_time = 0`)
shifted by its own start time. -/
def processGroup {P : Type} [Inhabited P] (bufferL : ℚ → ℕ → P)
    (difference : P → P → P) (polygonize : P → List P) (bufferP : P → ℚ → P)
    (intersects : ℚ × ℚ → P → Bool) (geo_stops : List Stop)
    (side : String) (buffer : ℚ) (project : ℚ × ℚ → ℚ)
    (zoneMatches : ℚ × ℚ → List (Option ℚ)) (shape_id : String)
    (spsTable : List SpsRow) (speed : ℚ) (trips : List GTrip) : List STRow :=
  let nearby := getStopsNearby bufferL difference polygonize bufferP
    intersects geo_stops side buffer
  if nearby.isEmpty then []
  else
    trips.flatMap (fun t =>
      if t.frequency = 0 then []
      else processTrip t (buildStopTimesForTrip "tmp_trip_id" nearby project
        zoneMatches shape_id spsTable speed 0))

/-- C7: when no candidate stop intersects the buffered corridor of a shape,
`get_stops_nearby` returns the empty collection and the `build_stop_times`
group of that shape contributes no stop-time rows for any of its trips —
and both computations are total, so no error is raised. -/
theorem c7_no_nearby_stops {P : Type} [Inhabited P] (bufferL : ℚ → ℕ → P)
    (difference : P → P → P) (polygonize : P → List P) (bufferP : P → ℚ → P)
    (intersects : ℚ × ℚ → P → Bool) (geo_stops : List Stop)
    (side : String) (buffer : ℚ) (project : ℚ × ℚ → ℚ)
    (zoneMatches : ℚ × ℚ → List (Option ℚ)) (shape_id : String)
    (spsTable : List SpsRow) (speed : ℚ) (trips : List GTrip)
    (h : ∀ s ∈ geo_stops, intersects s.pt
      (bufferSide bufferL difference polygonize bufferP side buffer) = false) :
    getStopsNearby bufferL difference polygonize bufferP intersects geo_stops
        side buffer = [] ∧
    processGroup bufferL difference polygonize bufferP intersects geo_stops
        side buffer project zoneMatches shape_id spsTable speed trips = [] := by
  have hnear : getStopsNearby bufferL difference polygonize bufferP intersects
      geo_stops side buffer = [] := by
    rw [getStopsNearby, List.filter_eq_nil_iff]
    intro s hs
    simp [h s hs]
  refine ⟨hnear, ?_⟩
  rw [processGroup]
  simp [hnear]

/-- C7 witness: a concrete two-stop candidate set rejected by the
intersection predicate. -/
theorem c7_no_nearby_stops_witness :
    (∀ s ∈ [Stop.mk "a" (1, 1), Stop.mk "b" (1, -1)],
      (fun (_ : ℚ × ℚ) (_ : ℕ) => false) s.pt
        (bufferSide (fun _ _ => 0) (fun a b => a + b) (fun a => [a])
          (fun a _ => a) "left" 10) = false) ∧
    (getStopsNearby (fun _ _ => 0) (fun a b => a + b) (fun a => [a])
        (fun a _ => a) (fun _ _ => false)
        [Stop.mk "a" (1, 1), Stop.mk "b" (1, -1)] "left" 10 = [] ∧
    processGroup (fun _ _ => 0) (fun a b => a + b) (fun a => [a])
        (fun a _ => a) (fun _ _ => false)
        [Stop.mk "a" (1, 1), Stop.mk "b" (1, -1)] "left" 10 (fun _ => 0)
        (fun _ => [some 10]) "sh" [] 22 [⟨⟨"r", "w", 21600, 0, 0⟩, 4⟩] = []) :=
  ⟨fun _ _ => rfl,
   c7_no_nearby_stops (fun _ _ => 0) (fun a b => a + b) (fun a => [a])
     (fun a _ => a) (fun _ _ => false)
     [Stop.mk "a" (1, 1), Stop.mk "b" (1, -1)] "left" 10 (fun _ => 0)
     (fun _ => [some 10]) "sh" [] 22 [⟨⟨"r", "w", 21600, 0, 0⟩, 4⟩]
     (fun _ _ => rfl)⟩

/-- C10: within a `(route, service window, direction)` group of frequency
`f > 0`, the trip of zero-based index `i` starts at
`window_start + i × (3600 / f)` seconds: index 0 starts at the window start
and consecutive indices are spaced exactly one headway `3600 / f` apart. -/
theorem c10_headway_start_times (route window : String) (ws d : ℕ) (f : ℕ)
    (i : ℕ) (hf : 0 < f) :
    startTimeOf ⟨⟨route, window, ws, d, i⟩, f⟩ =
      (ws : ℚ) + (i : ℚ) * (3600 / (f : ℚ)) ∧
    startTimeOf ⟨⟨route, window, ws, d, 0⟩, f⟩ = (ws : ℚ) ∧
    startTimeOf ⟨⟨route, window, ws, d, i + 1⟩, f⟩ -
      startTimeOf ⟨⟨route, window, ws, d, i⟩, f⟩ = 3600 / (f : ℚ) := by
  have hf' : (f : ℚ) ≠ 0 := by
    exact_mod_cast Nat.pos_iff_ne_zero.mp hf
  refine ⟨?_, ?_, ?_⟩
  · rw [startTimeOf]; ring
  · rw [startTimeOf]; simp
  · rw [startTimeOf, startTimeOf]
    push_cast
    ring

/-- C10 witness: with frequency 4 the trips of indices 0, 1, 2 start at the
window start plus 0, 900, 1800 seconds. -/
theorem c10_headway_start_times_witness :
    (0 : ℕ) < 4 ∧
    (startTimeOf ⟨⟨"r", "w", 21600, 0, 2⟩, 4⟩ =
      (21600 : ℚ) + (2 : ℚ) * (3600 / (4 : ℚ)) ∧
    startTimeOf ⟨⟨"r", "w", 21600, 0, 0⟩, 4⟩ = (21600 : ℚ) ∧
    startTimeOf ⟨⟨"r", "w", 21600, 0, 3⟩, 4⟩ -
      startTimeOf ⟨⟨"r", "w", 21600, 0, 2⟩, 4⟩ = 3600 / (4 : ℚ)) :=
  ⟨by norm_num, c10_headway_start_times "r" "w" 21600 0 4 2 (by norm_num)⟩

/-! ### The memoization layer (`_build_stop_times_for_trip`, `hashables.py`)

`HashableGeoDataFrame` and `HashableLineString` define `__eq__` as content
equality (`self.equals(other)`) and `__hash__` over the content, so
`lru_cache` keys behave as *values*: an in-memory instance is a pair of an
object identity and its content, and cache lookup compares contents only. -/

/-- An in-memory instance: an object identity plus its structural
content. -/
structure Inst (α : Type) where
  oid : ℕ
  val : α

/-- Model of `lru_cache` lookup keyed by the content equality that the hashable
wrappers implement. -/
def cacheLookup {α β : Type} [DecidableEq α] (c : List (Inst α × β))
    (k : Inst α) : Option β :=
  (c.find? (fun e => e.1.val == k.val)).map (·.2)

/-- A memoized call: return the cached result when the content key is
present, otherwise compute, cache and return. -/
def memoCall {α β : Type} [DecidableEq α] (compute : α → β)
    (c : List (Inst α × β)) (k : Inst α) : β × List (Inst α × β) :=
  match cacheLookup c k with
  | some r => (r, c)
  | none => (compute k.val, (k, compute k.val) :: c)

/-- A cache is well formed when every entry stores the computation of its
key's content. -/
def CacheWF {α β : Type} (compute : α → β) (c : List (Inst α × β)) : Prop :=
  ∀ e ∈ c, e.2 = compute e.1.val

/-- The content tuple of a `_build_stop_times_for_trip` call (the
geometry-valued arguments appear through `project`/`zoneMatches`, which
are determined by the linestring and speed-zone contents). -/
structure BKey where
  trip_id : String
  stops : List Stop
  shape_id : String
  spsTable : List SpsRow
  default_speed : ℚ
  start : ℚ
  deriving DecidableEq

/-- The computation memoized by `_build_stop_times_for_trip`: the plain
`build_stop_times_for_trip` on the key's content. -/
def computeBST (project : ℚ × ℚ → ℚ) (zoneMatches : ℚ × ℚ → List (Option ℚ))
    (k : BKey) : List STRow :=
  buildStopTimesForTrip k.trip_id k.stops project zoneMatches k.shape_id
    k.spsTable k.default_speed k.start

theorem cacheLookup_wf {α β : Type} [DecidableEq α] {compute : α → β}
    {c : List (Inst α × β)} (hwf : CacheWF compute c) (k : Inst α) {r : β}
    (h : cacheLookup c k = some r) : r = compute k.val := by
  rw [cacheLookup] at h
  obtain ⟨e, he, her⟩ := Option.map_eq_some'.mp h
  have hmem := List.mem_of_find?_eq_some he
  have hp := List.find?_some he
  have hv : e.1.val = k.val := by simpa using hp
  rw [← her, hwf e hmem, hv]

theorem cacheLookup_congr {α β : Type} [DecidableEq α]
    (c : List (Inst α × β)) {k k' : Inst α} (h : k'.val = k.val) :
    cacheLookup c k' = cacheLookup c k := by
  rw [cacheLookup, cacheLookup, h]

/-- C4: the memoized synthesizer agrees with the uncached
`build_stop_times_for_trip` on every key (for any well-formed cache), and
after a call with key `k`, any distinct in-memory instance `k'` with the
same content hits the same cache entry, receiving that same result. -/
theorem c4_memo_refinement (project : ℚ × ℚ → ℚ)
    (zoneMatches : ℚ × ℚ → List (Option ℚ))
    (cache : List (Inst BKey × List STRow)) (k k' : Inst BKey)
    (hwf : CacheWF (computeBST project zoneMatches) cache)
    (hkk : k'.val = k.val) :
    (memoCall (computeBST project zoneMatches) cache k).1 =
      computeBST project zoneMatches k.val ∧
    cacheLookup (memoCall (computeBST project zoneMatches) cache k).2 k' =
      some (computeBST project zoneMatches k.val) := by
  rw [memoCall]
  cases hlk : cacheLookup cache k with
  | some r =>
    have hr := cacheLookup_wf hwf k hlk
    refine ⟨hr, ?_⟩
    rw [cacheLookup_congr cache hkk, hlk, hr]
  | none =>
    refine ⟨rfl, ?_⟩
    rw [cacheLookup, List.find?_cons_of_pos, Option.map_some']
    exact beq_iff_eq.mpr hkk.symm

/-- C4 witness: two instances with distinct object identities and identical
content, starting from the empty cache. -/
theorem c4_memo_refinement_witness :
    (Inst.mk 1 (BKey.mk "t" [⟨"s0", (0, 0)⟩] "sh" [] 22 0)).val =
      (Inst.mk 0 (BKey.mk "t" [⟨"s0", (0, 0)⟩] "sh" [] 22 0)).val ∧
    ((memoCall (computeBST (fun _ => 0) (fun _ => [some 10])) []
        (Inst.mk 0 (BKey.mk "t" [⟨"s0", (0, 0)⟩] "sh" [] 22 0))).1 =
      computeBST (fun _ => 0) (fun _ => [some 10])
        (Inst.mk 0 (BKey.mk "t" [⟨"s0", (0, 0)⟩] "sh" [] 22 0)).val ∧
    cacheLookup (memoCall (computeBST (fun _ => 0) (fun _ => [some 10])) []
        (Inst.mk 0 (BKey.mk "t" [⟨"s0", (0, 0)⟩] "sh" [] 22 0))).2
        (Inst.mk 1 (BKey.mk "t" [⟨"s0", (0, 0)⟩] "sh" [] 22 0)) =
      some (computeBST (fun _ => 0) (fun _ => [some 10])
        (Inst.mk 0 (BKey.mk "t" [⟨"s0", (0, 0)⟩] "sh" [] 22 0)).val)) :=
  ⟨rfl,
   c4_memo_refinement (fun _ => 0) (fun _ => [some 10]) []
     (Inst.mk 0 (BKey.mk "t" [⟨"s0", (0, 0)⟩] "sh" [] 22 0))
     (Inst.mk 1 (BKey.mk "t" [⟨"s0", (0, 0)⟩] "sh" [] 22 0))
     (fun e he => absurd he (List.not_mem_nil e)) rfl⟩

/-! ### The speed-zone profiler (`compute_shape_point_speeds`)

Geometry is abstracted by: `metric` (the Euclidean distance between two
consecutive shape points after reprojection), `crossings` (the points where
a shape's linestring intersects the speed-zone boundaries), `projectOn`
(`linestring.project` of a boundary point onto its shape), and `inZone`
(intersection of a sample point with a zone polygon, i.e. the `sjoin`
predicate). -/

/-- One row of the GTFS `shapes` table. -/
structure ShapePt where
  shape_id : String
  seq : ℕ
  pt : ℚ × ℚ
  deriving DecidableEq

/-- A speed zone, over an abstract polygon type `π`; `speed = none` models
the `np.inf` speed of default zones. -/
structure Zone (π : Type) where
  route_type : ℕ
  zone_id : String
  speed : Option ℚ
  poly : π

/-- A sample of a shape before the spatial join: a path vertex (with its
`shape_pt_sequence`) or a zone-boundary crossing (sequence marker `-1`). -/
structure Sample where
  shape_id : String
  seq : ℤ
  dist : ℚ
  pt : ℚ × ℚ
  deriving DecidableEq

/-- One output row of `compute_shape_point_speeds`. -/
structure ProfRow where
  shape_id : String
  seq : ℤ
  dist : ℚ
  pt : ℚ × ℚ
  route_type : ℕ
  zone_id : String
  speed : Option ℚ
  deriving DecidableEq

/-- Comparison of `sort_values(["shape_id", "shape_pt_sequence"])`. -/
def shapePtLe (a b : ShapePt) : Prop :=
  a.shape_id < b.shape_id ∨ (a.shape_id = b.shape_id ∧ a.seq ≤ b.seq)

instance : DecidableRel shapePtLe := fun _ _ =>
  inferInstanceAs (Decidable (_ ∨ _))

instance : IsTotal ShapePt shapePtLe :=
  ⟨fun a b => by
    rcases lt_trichotomy a.shape_id b.shape_id with h | h | h
    · exact Or.inl (Or.inl h)
    · rcases le_total a.seq b.seq with h' | h'
      · exact Or.inl (Or.inr ⟨h, h'⟩)
      · exact Or.inr (Or.inr ⟨h.symm, h'⟩)
    · exact Or.inr (Or.inl h)⟩

instance : IsTrans ShapePt shapePtLe :=
  ⟨fun a b c hab hbc => by
    rcases hab with hab | ⟨hab, hab'⟩
    · rcases hbc with hbc | ⟨hbc, _⟩
      · exact Or.inl (hab.trans hbc)
      · exact Or.inl (hbc ▸ hab)
    · rcases hbc with hbc | ⟨hbc, hbc'⟩
      · exact Or.inl (hab ▸ hbc)
      · exact Or.inr ⟨hab.trans hbc, hab'.trans hbc'⟩⟩

/-- Comparison of `sort_values(["shape_id", "shape_dist_traveled", "shape_pt_sequence"])`:
boundary samples (`-1`) sort before vertex samples at the same
distance, deterministically. -/
def profLe (a b : ProfRow) : Prop :=
  a.shape_id < b.shape_id ∨
    (a.shape_id = b.shape_id ∧
      (a.dist < b.dist ∨ (a.dist = b.dist ∧ a.seq ≤ b.seq)))

instance : DecidableRel profLe := fun _ _ =>
  inferInstanceAs (Decidable (_ ∨ _))

instance : IsTotal ProfRow profLe :=
  ⟨fun a b => by
    rcases lt_trichotomy a.shape_id b.shape_id with h | h | h
    · exact Or.inl (Or.inl h)
    · rcases lt_trichotomy a.dist b.dist with h' | h' | h'
      · exact Or.inl (Or.inr ⟨h, Or.inl h'⟩)
      · rcases le_total a.seq b.seq with h'' | h''
        · exact Or.inl (Or.inr ⟨h, Or.inr ⟨h', h''⟩⟩)
        · exact Or.inr (Or.inr ⟨h.symm, Or.inr ⟨h'.symm, h''⟩⟩)
      · exact Or.inr (Or.inr ⟨h.symm, Or.inl h'⟩)
    · exact Or.inr (Or.inl h)⟩

instance : IsTrans ProfRow profLe :=
  ⟨fun a b c hab hbc => by
    rcases hab with hab | ⟨hab, hab'⟩
    · rcases hbc with hbc | ⟨hbc, _⟩
      · exact Or.inl (hab.trans hbc)
      · exact Or.inl (hbc ▸ hab)
    · rcases hbc with hbc | ⟨hbc, hbc'⟩
      · exact Or.inl (hab ▸ hbc)
      · refine Or.inr ⟨hab.trans hbc, ?_⟩
        rcases hab' with h1 | ⟨h1, h1'⟩
        · rcases hbc' with h2 | ⟨h2, _⟩
          · exact Or.inl (h1.trans h2)
          · exact Or.inl (h2 ▸ h1)
        · rcases hbc' with h2 | ⟨h2, h2'⟩
          · exact Or.inl (h1 ▸ h2)
          · exact Or.inr ⟨h1.trans h2, h1'.trans h2'⟩⟩

/-- The shape table sorted by `(shape_id, shape_pt_sequence)` as the
`groupby`/`sort_values` pipeline arranges it. -/
def sortShapePts (l : List ShapePt) : List ShapePt :=
  List.insertionSort shapePtLe l

/-- Cumulative-distance walk over the sorted shape points:
`dist = geometry.distance(geometry.shift(1))` and
`shape_dist_traveled = dist.fillna(0).cumsum()`, restarting at each new
shape ID; the walk state is the current shape ID, previous point, and
accumulated distance. -/
def vsAux (metric : ℚ × ℚ → ℚ × ℚ → ℚ) :
    Option (String × (ℚ × ℚ) × ℚ) → List ShapePt → List Sample
  | _, [] => []
  | none, p :: rest =>
    ⟨p.shape_id, (p.seq : ℤ), 0, p.pt⟩ ::
      vsAux metric (some (p.shape_id, p.pt, 0)) rest
  | some (sid, prev, acc), p :: rest =>
    if p.shape_id = sid then
      ⟨p.shape_id, (p.seq : ℤ), acc + metric prev p.pt, p.pt⟩ ::
        vsAux metric (some (sid, p.pt, acc + metric prev p.pt)) rest
    else
      ⟨p.shape_id, (p.seq : ℤ), 0, p.pt⟩ ::
        vsAux metric (some (p.shape_id, p.pt, 0)) rest

/-- One sample per path vertex, with cumulative distance from the shape
start. -/
def vertexSamples (metric : ℚ × ℚ → ℚ × ℚ → ℚ) (shapes : List ShapePt) :
    List Sample :=
  vsAux metric none (sortShapePts shapes)

/-- The distinct shape IDs, in the order `groupby("shape_id")` visits
them. -/
def shapeIdsOf (shapes : List ShapePt) : List String :=
  ((sortShapePts shapes).map (·.shape_id)).dedup

/-- One boundary sample per intersection of a shape with the speed-zone
boundaries, with the point projected onto the shape for its distance and
`shape_pt_sequence = -1`. -/
def boundarySamples (crossings : String → List (ℚ × ℚ))
    (projectOn : String → ℚ × ℚ → ℚ) (shapes : List ShapePt) : List Sample :=
  (shapeIdsOf shapes).flatMap
    (fun sid => (crossings sid).map (fun p => ⟨sid, -1, projectOn sid p, p⟩))

/-- Model of `pd.concat([shape_points, boundary_points])`. -/
def allSamples (metric : ℚ × ℚ → ℚ × ℚ → ℚ)
    (crossings : String → List (ℚ × ℚ)) (projectOn : String → ℚ × ℚ → ℚ)
    (shapes : List ShapePt) : List Sample :=
  vertexSamples metric shapes ++ boundarySamples crossings projectOn shapes

/-- Model of `.sjoin(speed_zones)`: one output row per (sample, intersecting zone)
pair, carrying the zone's ID and speed and the requested route type. -/
def sjoinSamples {π : Type} (inZone : ℚ × ℚ → π → Bool)
    (zs : List (Zone π)) (rt : ℕ) (samples : List Sample) : List ProfRow :=
  samples.flatMap (fun s =>
    (zs.filter (fun z => inZone s.pt z.poly)).map
      (fun z => ⟨s.shape_id, s.seq, s.dist, s.pt, rt, z.zone_id, z.speed⟩))

/-- Model of `compute_shape_point_speeds`: restrict the zones to the route type
(returning an empty frame if none match), build vertex and boundary
samples, spatially join them with the zones, and sort by
`(shape_id, shape_dist_traveled, shape_pt_sequence)`. -/
def computeShapePointSpeeds {π : Type} (metric : ℚ × ℚ → ℚ × ℚ → ℚ)
    (crossings : String → List (ℚ × ℚ)) (projectOn : String → ℚ × ℚ → ℚ)
    (inZone : ℚ × ℚ → π → Bool) (shapes : List ShapePt)
    (zones : List (Zone π)) (rt : ℕ) : List ProfRow :=
  let zs := zones.filter (fun z => z.route_type == rt)
  if zs.isEmpty then []
  else
    List.insertionSort profLe
      (sjoinSamples inZone zs rt (allSamples metric crossings projectOn shapes))

theorem vsAux_length (metric : ℚ × ℚ → ℚ × ℚ → ℚ) :
    ∀ (st : Option (String × (ℚ × ℚ) × ℚ)) (l : List ShapePt),
      (vsAux metric st l).length = l.length
  | _, [] => by rw [vsAux.eq_def]; cases ‹Option _› <;> rfl
  | none, p :: rest => by
    rw [vsAux]
    simp [vsAux_length metric _ rest]
  | some (sid, prev, acc), p :: rest => by
    rw [vsAux]
    by_cases h : p.shape_id = sid <;>
      simp [h, vsAux_length metric _ rest]

theorem sjoinSamples_eq_map {π : Type} (inZone : ℚ × ℚ → π → Bool)
    (zs : List (Zone π)) (rt : ℕ) (assign : Sample → Zone π) :
    ∀ (samples : List Sample),
      (∀ s ∈ samples, zs.filter (fun z => inZone s.pt z.poly) = [assign s]) →
      sjoinSamples inZone zs rt samples =
        samples.map (fun s =>
          ⟨s.shape_id, s.seq, s.dist, s.pt, rt, (assign s).zone_id,
            (assign s).speed⟩)
  | [], _ => rfl
  | s :: rest, h => by
    rw [sjoinSamples, List.flatMap_cons, h s (by simp), ← sjoinSamples,
      sjoinSamples_eq_map inZone zs rt assign rest
        (fun x hx => h x (List.mem_cons_of_mem s hx))]
    rfl

/-- C9: `compute_shape_point_speeds` returns an empty profile when no speed
zone matches the route type; otherwise it emits one sample per path vertex
(`vertexSamples`, carrying cumulative distances) plus one boundary sample
per zone-boundary crossing tagged with sequence marker `-1`, each sample
joined to its zone's `(zone_id, speed)` (stated for inputs where each
sample point lies in exactly one zone of the route type), and the output is
sorted by `(shape_id, distance, sequence)`, giving co-located boundary and
vertex samples a deterministic relative order. -/
theorem c9_shape_point_speeds {π : Type} (metric : ℚ × ℚ → ℚ × ℚ → ℚ)
    (crossings : String → List (ℚ × ℚ)) (projectOn : String → ℚ × ℚ → ℚ)
    (inZone : ℚ × ℚ → π → Bool) (shapes : List ShapePt)
    (zones : List (Zone π)) (rt : ℕ) (assign : Sample → Zone π)
    (hone : ∀ s ∈ allSamples metric crossings projectOn shapes,
      (zones.filter (fun z => z.route_type == rt)).filter
        (fun z => inZone s.pt z.poly) = [assign s]) :
    (zones.filter (fun z => z.route_type == rt) = [] →
      computeShapePointSpeeds metric crossings projectOn inZone shapes zones
        rt = []) ∧
    (vertexSamples metric shapes).length = shapes.length ∧
    (∀ s ∈ boundarySamples crossings projectOn shapes, s.seq = -1) ∧
    (zones.filter (fun z => z.route_type == rt) ≠ [] →
      (computeShapePointSpeeds metric crossings projectOn inZone shapes zones
          rt).Perm
        ((allSamples metric crossings projectOn shapes).map (fun s =>
          ⟨s.shape_id, s.seq, s.dist, s.pt, rt, (assign s).zone_id,
            (assign s).speed⟩))) ∧
    List.Sorted profLe
      (computeShapePointSpeeds metric crossings projectOn inZone shapes zones
        rt) := by
  refine ⟨?_, ?_, ?_, ?_, ?_⟩
  · intro h
    rw [computeShapePointSpeeds, if_pos (by rw [h]; rfl)]
  · rw [vertexSamples, vsAux_length]
    exact (List.perm_insertionSort shapePtLe shapes).length_eq
  · intro s hs
    obtain ⟨sid, _, hmem⟩ := List.mem_flatMap.mp hs
    obtain ⟨p, _, hp⟩ := List.mem_map.mp hmem
    rw [← hp]
  · intro h
    rw [computeShapePointSpeeds, if_neg (by simpa using h),
      sjoinSamples_eq_map inZone _ rt assign _ hone]
    exact List.perm_insertionSort profLe _
  · rw [computeShapePointSpeeds]
    by_cases h : (zones.filter (fun z => z.route_type == rt)).isEmpty
    · rw [if_pos h]
      exact List.sorted_nil
    · rw [if_neg h]
      exact List.sorted_insertionSort profLe _

/-- C9 witness: a single two-vertex shape inside one matching zone with one
boundary crossing. -/
theorem c9_shape_point_speeds_witness :
    (∀ s ∈ allSamples (fun _ _ => 7) (fun _ => [(3, 0)]) (fun _ _ => 3)
        [⟨"sh", 0, (0, 0)⟩, ⟨"sh", 1, (6, 0)⟩],
      (([Zone.mk 3 "z" (some 40) (0 : ℕ)]).filter
        (fun z => z.route_type == 3)).filter
          (fun z => (fun (_ : ℚ × ℚ) (_ : ℕ) => true) s.pt z.poly) =
        [Zone.mk 3 "z" (some 40) (0 : ℕ)]) ∧
    ((vertexSamples (fun _ _ => 7) [⟨"sh", 0, (0, 0)⟩, ⟨"sh", 1, (6, 0)⟩]).length =
      2 ∧
    List.Sorted profLe
      (computeShapePointSpeeds (fun _ _ => 7) (fun _ => [(3, 0)])
        (fun _ _ => 3) (fun (_ : ℚ × ℚ) (_ : ℕ) => true)
        [⟨"sh", 0, (0, 0)⟩, ⟨"sh", 1, (6, 0)⟩]
        [Zone.mk 3 "z" (some 40) (0 : ℕ)] 3)) := by
  have h := c9_shape_point_speeds (fun _ _ => 7) (fun _ => [(3, 0)])
    (fun _ _ => 3) (fun (_ : ℚ × ℚ) (_ : ℕ) => true)
    [⟨"sh", 0, (0, 0)⟩, ⟨"sh", 1, (6, 0)⟩] [Zone.mk 3 "z" (some 40) (0 : ℕ)]
    3 (fun _ => Zone.mk 3 "z" (some 40) (0 : ℕ)) (fun s _ => rfl)
  exact ⟨fun s _ => rfl, h.2.1, h.2.2.2.2⟩

end MakeGtfs
